import Mathlib

/-!
Verification of the mcf front-end (tokenizer and recursive-descent parser).

The definitions below are a shallow embedding of `src/lex.rs` and
`src/main.rs`.  The character stream is modelled as a list of
(byte-offset, character) pairs, exactly the view produced by Rust's
`str::char_indices`.  General recursion (the tokenizer's outer `while`
loop and the mutually recursive parser functions) is made structural by
an explicit fuel parameter; running out of fuel is a distinct `nofuel`
outcome, never confused with the program's own results.  The `.unwrap()`
calls in the parser that can fail at runtime are modelled by an explicit
`panic` outcome.  Machine integers (`i64`) are modelled as `Int` with
explicit wrapping through `wrap64`.
-/

set_option maxRecDepth 4096

namespace Mcf

/-- The double-quote character. -/
def dquote : Char := Char.ofNat 34

/-- The single-quote character. -/
def squote : Char := Char.ofNat 39

/-- `TokenKind` from `lex.rs`. -/
inductive TokenKind where
  | LParen
  | RParen
  | LBracket
  | RBracket
  | Quote
  | Name (s : String)
  | Integer (v : Int)
  | String (s : String)
deriving DecidableEq

/-- `Token` from `lex.rs`: a kind together with the byte offset of its
first character. -/
structure Token where
  kind : TokenKind
  pos : Nat
deriving DecidableEq

/-- `TokenizeError` from `lex.rs`. -/
structure TokenizeError where
  message : String
  pos : Nat
deriving DecidableEq

/-- Rust `char::is_whitespace` (the Unicode White_Space property). -/
def isRustWhitespace (c : Char) : Bool :=
  let n := c.toNat
  (9 ≤ n && n ≤ 13) || n == 32 || n == 133 || n == 160 || n == 5760 ||
  (8192 ≤ n && n ≤ 8202) || n == 8232 || n == 8233 || n == 8239 ||
  n == 8287 || n == 12288

/-- The character class `'0'..='9'`. -/
def isDecimalDigit (c : Char) : Bool :=
  48 ≤ c.toNat && c.toNat ≤ 57

/-- Rust `char::to_digit`: digits `0`-`9`, `a`-`z`, `A`-`Z`, valid when
below the radix. -/
def toDigit (c : Char) (base : Nat) : Option Nat :=
  let v : Option Nat :=
    if 48 ≤ c.toNat ∧ c.toNat ≤ 57 then some (c.toNat - 48)
    else if 97 ≤ c.toNat ∧ c.toNat ≤ 122 then some (c.toNat - 97 + 10)
    else if 65 ≤ c.toNat ∧ c.toNat ≤ 90 then some (c.toNat - 65 + 10)
    else none
  match v with
  | some n => if n < base then some n else none
  | none => none

/-- Wrapping 64-bit signed integer arithmetic: normalise an `Int` into
`[-2^63, 2^63)`. -/
def wrap64 (x : Int) : Int := (x + 2 ^ 63) % 2 ^ 64 - 2 ^ 63

/-- The message `format!("Unknown escape sequence '\\{}'", next)`. -/
def unknownEscapeMessage (next : Char) : String :=
  "Unknown escape sequence " ++ String.mk [squote, '\\', next, squote]

/-- The string-literal loop of `Tokenizer::tokenize` (`lex.rs` lines
113-154).  `op` is the offset of the opening double quote, `acc` the
content accumulated so far.  Returns the decoded content and the stream
after the closing quote. -/
def scanString (op : Nat) (acc : String) :
    List (Nat × Char) → Except TokenizeError (String × List (Nat × Char))
  | [] => .error ⟨"Unterminated string", op⟩
  | (p, ch) :: rest =>
    if ch = '\\' then
      match rest with
      | [] => .error ⟨"Unexpected end of file", p⟩
      | (_, next) :: rest2 =>
        if next = dquote then scanString op (acc.push dquote) rest2
        else if next = 't' then scanString op (acc.push '\t') rest2
        else if next = 'n' then scanString op (acc.push '\n') rest2
        else .error ⟨unknownEscapeMessage next, p⟩
    else if ch = dquote then .ok (acc, rest)
    else scanString op (acc.push ch) rest

/-- The digit-accumulation loop of the integer branch (`lex.rs` lines
166-182): stop at whitespace, `)` or `]`; otherwise the consumed
character must be a digit of the current base. -/
def scanIntLoop (base : Nat) (value : Int) :
    List (Nat × Char) → Except TokenizeError (Int × List (Nat × Char))
  | [] => .ok (value, [])
  | (p, ch) :: rest =>
    if isRustWhitespace ch ∨ ch = ')' ∨ ch = ']' then .ok (value, (p, ch) :: rest)
    else
      match toDigit ch base with
      | none => .error ⟨"Unexpected character in integer literal", p⟩
      | some d => scanIntLoop base (wrap64 (wrap64 (value * (base : Int)) + (d : Int))) rest

/-- The first character of the remaining stream, i.e. what
`self.it.peek()` would see. -/
def headChar (l : List (Nat × Char)) : Option Char := l.head?.map Prod.snd

/-- The integer branch of `Tokenizer::tokenize` (`lex.rs` lines
155-186).  `ch` is the already-consumed first character (a digit or
`-`), `rest` the stream after it. -/
def intBranch (ch : Char) (rest : List (Nat × Char)) :
    Except TokenizeError (Int × List (Nat × Char)) :=
  let sign : Int := if ch = '-' then -1 else 1
  let v0 : Int := if ch = '-' then 0 else ((ch.toNat - 48 : Nat) : Int)
  let base : Nat := if ch = '0' ∧ headChar rest = some 'x' then 16 else 10
  let rest1 : List (Nat × Char) := if ch = '0' ∧ headChar rest = some 'x' then rest.tail else rest
  match scanIntLoop base v0 rest1 with
  | .error e => .error e
  | .ok (v, rest2) => .ok (wrap64 (v * sign), rest2)

/-- The comment branch (`lex.rs` lines 188-194): discard characters up
to and including the next newline, or to end of input. -/
def scanComment : List (Nat × Char) → List (Nat × Char)
  | [] => []
  | (_, ch) :: rest => if ch = '\n' then rest else scanComment rest

/-- The name branch's loop (`lex.rs` lines 200-208): absorb characters
until whitespace, `(`, `)` or `"`. -/
def scanName (acc : String) : List (Nat × Char) → String × List (Nat × Char)
  | [] => (acc, [])
  | (p, ch) :: rest =>
    if isRustWhitespace ch ∨ ch = '(' ∨ ch = ')' ∨ ch = dquote then (acc, (p, ch) :: rest)
    else scanName (acc.push ch) rest

/-- The five single-character punctuation tokens. -/
def isSimple (ch : Char) : Bool :=
  ch = '(' ∨ ch = ')' ∨ ch = '[' ∨ ch = ']' ∨ ch = squote

/-- `Token::new_simple`'s kind selection. -/
def simpleKind (ch : Char) : TokenKind :=
  if ch = '(' then .LParen
  else if ch = ')' then .RParen
  else if ch = '[' then .LBracket
  else if ch = ']' then .RBracket
  else .Quote

/-- Is the head of the stream a decimal digit?  This is the
`('-', Some('0'..='9'))` guard of the integer branch. -/
def decimalAhead (l : List (Nat × Char)) : Bool :=
  match l with
  | (_, d) :: _ => isDecimalDigit d
  | [] => false

/-- Outcome of the tokenizer: the token list, a `TokenizeError`, or the
fuel artifact `nofuel` (never reached from `tokenize`). -/
inductive TResult where
  | ok (toks : List Token)
  | error (e : TokenizeError)
  | nofuel
deriving DecidableEq

/-- Prepend a token to a successful tokenization (`tokens.push` viewed
from the front of the produced list). -/
def tkCons (t : Token) : TResult → TResult
  | .ok ts => .ok (t :: ts)
  | r => r

/-- The outer `while` loop of `Tokenizer::tokenize` (`lex.rs` lines
107-217), one fuel unit per consumed leading character. -/
def tokenizeF : Nat → List (Nat × Char) → TResult
  | 0, _ => .nofuel
  | _ + 1, [] => .ok []
  | fuel + 1, (p, ch) :: rest =>
    if isSimple ch then tkCons ⟨simpleKind ch, p⟩ (tokenizeF fuel rest)
    else if ch = dquote then
      match scanString p "" rest with
      | .error e => .error e
      | .ok (content, rest2) => tkCons ⟨.String content, p⟩ (tokenizeF fuel rest2)
    else if isDecimalDigit ch ∨ (ch = '-' ∧ decimalAhead rest) then
      match intBranch ch rest with
      | .error e => .error e
      | .ok (v, rest2) => tkCons ⟨.Integer v, p⟩ (tokenizeF fuel rest2)
    else if ch = '#' then tokenizeF fuel (scanComment rest)
    else if isRustWhitespace ch then tokenizeF fuel rest
    else
      match scanName (String.singleton ch) rest with
      | (nm, rest2) => tkCons ⟨.Name nm, p⟩ (tokenizeF fuel rest2)

/-- Rust `str::char_indices`: each character paired with its UTF-8 byte
offset. -/
def charIndicesAux : Nat → List Char → List (Nat × Char)
  | _, [] => []
  | pos, c :: cs => (pos, c) :: charIndicesAux (pos + c.utf8Size) cs

/-- The `(byte offset, char)` stream of a string. -/
def charIndices (s : String) : List (Nat × Char) := charIndicesAux 0 s.data

/-- `Tokenizer::tokenize` on a source string. -/
def tokenize (s : String) : TResult :=
  tokenizeF ((charIndices s).length + 1) (charIndices s)

example : tokenize "(+ 1 2)" =
    .ok [⟨.LParen, 0⟩, ⟨.Name "+", 1⟩, ⟨.Integer 1, 3⟩, ⟨.Integer 2, 5⟩, ⟨.RParen, 6⟩] := by
  decide

example : tokenize "0x1F" = .ok [⟨.Integer 31, 0⟩] := by decide

example : tokenize "-5" = .ok [⟨.Integer (-5), 0⟩] := by decide

example : tokenize "12" = .ok [⟨.Integer 12, 0⟩] := by decide

example : tokenize "\x22abc" = .error ⟨"Unterminated string", 0⟩ := by decide

example : tokenize "\x22a\\tb\\n\\\x22c\x22" = .ok [⟨.String "a\tb\n\x22c", 0⟩] := by decide

example : tokenize "\x22ab\\" = .error ⟨"Unexpected end of file", 3⟩ := by decide

example : tokenize "# hi" = .ok [] := by decide

example : tokenize "  # hi\n # more" = .ok [] := by decide

example : tokenize "123x" = .error ⟨"Unexpected character in integer literal", 3⟩ := by decide

/-- `Expr` from `main.rs`. -/
inductive Expr where
  | VariableRef (var : String)
  | IntegerLiteral (v : Int)
  | StringLiteral (s : String)
  | FnCall (name : String) (args : List Expr)
  | Args (args : List Expr)
  | DefineFn (name : String) (args : Expr) (body : Expr)
  | Do (exprs : List Expr)
  | Let (name : String) (type : String)

/-- `ParseError` from `main.rs`: a message and the token the error is
anchored at. -/
structure ParseError where
  message : String
  token : Token
deriving DecidableEq

/-- Outcome of a parser function: `Ok(val)` together with the remaining
tokens, `Err(e)`, a Rust `panic` (a failed `.unwrap()`), or the fuel
artifact `nofuel` (never reached from `parse_expr`). -/
inductive PResult (α : Type) where
  | ok (val : α) (rest : List Token)
  | err (e : ParseError)
  | panic
  | nofuel

/-- The `fmt::Display` implementation for `Token` (`lex.rs` lines
60-75). -/
def tokenDisplay (t : Token) : String :=
  match t.kind with
  | .LParen => "opening parenthesis"
  | .RParen => "closing parenthesis"
  | .LBracket => "opening bracket"
  | .RBracket => "closing bracket"
  | .Quote => "quote"
  | .Name _ => "name"
  | .Integer _ => "integer"
  | .String _ => "string"

/-- The closing-parenthesis check at the end of `Parser::parse_expr`'s
opening-parenthesis branch (`main.rs` lines 219-235).  `tok` is the
opening-parenthesis token of the form, `result` the sub-rule's result. -/
def closeForm (tok : Token) (result : Option Expr) : List Token → PResult (Option Expr)
  | [] => .err ⟨"Unexpected end of input, was expecting a closing parenthesis to close this expression", tok⟩
  | t :: rest =>
    if t.kind = .RParen then .ok result rest
    else .err ⟨"Unexpected token, was expecting a closing parenthesis", t⟩

/-- A pending call to one of the mutually recursive parser functions of
`main.rs`.  The Rust functions are mutually recursive; packaging their
arguments in one type lets the whole parser be a single function that
recurses structurally on fuel (and hence computes by kernel
reduction). -/
inductive PCall where
  | expr (l : List Token)
  | definefn (fnToken : Token) (l : List Token)
  | letDecl (letToken : Token) (l : List Token)
  | fncall (name : String) (acc : List Expr) (l : List Token)
  | doSeq (acc : List Expr) (l : List Token)
  | argsList (acc : List Expr) (l : List Token)

/-- The special-form dispatch on the name following the opening
parenthesis (`main.rs` lines 211-217): which parser function
`parse_expr` hands `fn`, `let`, `do`, `args`, or a generic call to. -/
def dispatchCall (n : String) (next : Token) (l : List Token) : PCall :=
  if n = "fn" then .definefn next l
  else if n = "let" then .letDecl next l
  else if n = "do" then .doSeq [] l
  else if n = "args" then .argsList [] l
  else .fncall n [] l

/-- The parser.  Each `PCall` case is the body of the corresponding
function of `main.rs`:

* `.expr` is `Parser::parse_expr` (lines 198-266);
* `.definefn` is `Parser::parse_definefn` (lines 142-163) — the two
  `.unwrap()` calls on sub-expression results are modelled by `panic`
  when the sub-parse returns `Ok(None)`;
* `.letDecl` is `Parser::parse_let` (lines 165-196);
* `.fncall`, `.doSeq`, `.argsList` are the repetition loops of
  `Parser::parse_fncall` / `parse_do` / `parse_args` (lines 100-140),
  which stop when the peeked token is a closing parenthesis or the
  stream is exhausted and otherwise parse-and-`.unwrap()` one
  expression per iteration.

One unit of fuel is consumed per call. -/
def parseF : Nat → PCall → PResult (Option Expr)
  | 0, _ => .nofuel
  | _ + 1, .expr [] => .ok none []
  | fuel + 1, .expr (token :: rest) =>
    match token.kind with
    | .LParen =>
      match rest with
      | [] => .err ⟨"Unexpected end of file, was expecting a name", token⟩
      | next :: rest2 =>
        match next.kind with
        | .Name n =>
          match parseF fuel (dispatchCall n next rest2) with
          | .ok result rest3 => closeForm token result rest3
          | .err e => .err e
          | .panic => .panic
          | .nofuel => .nofuel
        | _ => .err ⟨"Unexpected token, was expecting a name", next⟩
    | .Name n => .ok (some (.VariableRef n)) rest
    | .Integer v => .ok (some (.IntegerLiteral v)) rest
    | .String s => .ok (some (.StringLiteral s)) rest
    | _ => .err ⟨"Unexpeced " ++ tokenDisplay token, token⟩
  | fuel + 1, .definefn fnToken l =>
    match l with
    | [] => .err ⟨"Unexpected end of input, was a name for this function", fnToken⟩
    | nameTok :: rest =>
      match nameTok.kind with
      | .Name n =>
        match parseF fuel (.expr rest) with
        | .ok (some args) rest2 =>
          match parseF fuel (.expr rest2) with
          | .ok (some body) rest3 => .ok (some (.DefineFn n args body)) rest3
          | .ok none _ => .panic
          | .err e => .err e
          | .panic => .panic
          | .nofuel => .nofuel
        | .ok none _ => .panic
        | .err e => .err e
        | .panic => .panic
        | .nofuel => .nofuel
      | _ => .err ⟨"Unexpected token, was expecting a name", nameTok⟩
  | _ + 1, .letDecl letToken l =>
    match l with
    | [] => .err ⟨"Unexpected end of input, was a name for this variable", letToken⟩
    | nameTok :: rest =>
      match nameTok.kind with
      | .Name n =>
        match rest with
        | [] => .err ⟨"Unexpected end of input, was a type name for this variable", letToken⟩
        | typeTok :: rest2 =>
          match typeTok.kind with
          | .Name ty => .ok (some (.Let n ty)) rest2
          | _ => .err ⟨"Unexpected token, was expecting a type name", typeTok⟩
      | _ => .err ⟨"Unexpected token, was expecting a name", nameTok⟩
  | _ + 1, .fncall name acc [] => .ok (some (.FnCall name acc)) []
  | fuel + 1, .fncall name acc (tok :: rest) =>
    if tok.kind = .RParen then .ok (some (.FnCall name acc)) (tok :: rest)
    else
      match parseF fuel (.expr (tok :: rest)) with
      | .ok (some e) rest2 => parseF fuel (.fncall name (acc ++ [e]) rest2)
      | .ok none _ => .panic
      | .err e => .err e
      | .panic => .panic
      | .nofuel => .nofuel
  | _ + 1, .doSeq acc [] => .ok (some (.Do acc)) []
  | fuel + 1, .doSeq acc (tok :: rest) =>
    if tok.kind = .RParen then .ok (some (.Do acc)) (tok :: rest)
    else
      match parseF fuel (.expr (tok :: rest)) with
      | .ok (some e) rest2 => parseF fuel (.doSeq (acc ++ [e]) rest2)
      | .ok none _ => .panic
      | .err e => .err e
      | .panic => .panic
      | .nofuel => .nofuel
  | _ + 1, .argsList acc [] => .ok (some (.Args acc)) []
  | fuel + 1, .argsList acc (tok :: rest) =>
    if tok.kind = .RParen then .ok (some (.Args acc)) (tok :: rest)
    else
      match parseF fuel (.expr (tok :: rest)) with
      | .ok (some e) rest2 => parseF fuel (.argsList (acc ++ [e]) rest2)
      | .ok none _ => .panic
      | .err e => .err e
      | .panic => .panic
      | .nofuel => .nofuel

/-- `Parser::parse_expr` at a given fuel. -/
def parse_exprF (fuel : Nat) (l : List Token) : PResult (Option Expr) :=
  parseF fuel (.expr l)

/-- The sub-rule selected by the name after an opening parenthesis, at a
given fuel. -/
def dispatchF (fuel : Nat) (n : String) (next : Token) (l : List Token) :
    PResult (Option Expr) :=
  parseF fuel (dispatchCall n next l)

/-- `Parser::parse_expr` with enough fuel for its token list: one unit
of fuel is consumed per nested call, and both the nesting depth and the
number of loop iterations are bounded by the number of tokens. -/
def parse_expr (l : List Token) : PResult (Option Expr) :=
  parse_exprF (2 * l.length + 2) l

example : parse_expr [⟨.Name "x", 0⟩] = .ok (some (.VariableRef "x")) [] := rfl

example : parse_expr [] = .ok none [] := rfl

example :
    parse_expr [⟨.LParen, 0⟩, ⟨.Name "fn", 1⟩, ⟨.Name "add", 4⟩,
      ⟨.LParen, 8⟩, ⟨.Name "args", 9⟩, ⟨.Name "a", 14⟩, ⟨.Name "b", 16⟩, ⟨.RParen, 17⟩,
      ⟨.LParen, 19⟩, ⟨.Name "do", 20⟩,
      ⟨.LParen, 23⟩, ⟨.Name "+", 24⟩, ⟨.Name "a", 26⟩, ⟨.Name "b", 28⟩, ⟨.RParen, 29⟩,
      ⟨.RParen, 30⟩, ⟨.RParen, 31⟩] =
    .ok (some (.DefineFn "add" (.Args [.VariableRef "a", .VariableRef "b"])
      (.Do [.FnCall "+" [.VariableRef "a", .VariableRef "b"]]))) [] := rfl

example : tokenize "(fn add (args a b) (do (+ a b)))" =
    .ok [⟨.LParen, 0⟩, ⟨.Name "fn", 1⟩, ⟨.Name "add", 4⟩,
      ⟨.LParen, 8⟩, ⟨.Name "args", 9⟩, ⟨.Name "a", 14⟩, ⟨.Name "b", 16⟩, ⟨.RParen, 17⟩,
      ⟨.LParen, 19⟩, ⟨.Name "do", 20⟩,
      ⟨.LParen, 23⟩, ⟨.Name "+", 24⟩, ⟨.Name "a", 26⟩, ⟨.Name "b", 28⟩, ⟨.RParen, 29⟩,
      ⟨.RParen, 30⟩, ⟨.RParen, 31⟩] := by decide

example : tokenize "(fn x" = .ok [⟨.LParen, 0⟩, ⟨.Name "fn", 1⟩, ⟨.Name "x", 4⟩] := by decide

example : parse_expr [⟨.LParen, 0⟩, ⟨.Name "fn", 1⟩, ⟨.Name "x", 4⟩] = .panic := rfl

example : tokenize "(foo" = .ok [⟨.LParen, 0⟩, ⟨.Name "foo", 1⟩] := by decide

example : parse_expr [⟨.LParen, 0⟩, ⟨.Name "foo", 1⟩] =
    .err ⟨"Unexpected end of input, was expecting a closing parenthesis to close this expression",
      ⟨.LParen, 0⟩⟩ := rfl

example : tokenize "(let x int)" =
    .ok [⟨.LParen, 0⟩, ⟨.Name "let", 1⟩, ⟨.Name "x", 5⟩, ⟨.Name "int", 7⟩, ⟨.RParen, 10⟩] := by decide

example : parse_expr [⟨.LParen, 0⟩, ⟨.Name "let", 1⟩, ⟨.Name "x", 5⟩, ⟨.Name "int", 7⟩, ⟨.RParen, 10⟩] =
    .ok (some (.Let "x" "int")) [] := rfl

/-- Does the character stream hold only whitespace and line comments?
`inComment` is true while inside a `#` comment.  This is the input
class named by the specification's whitespace-and-comments property. -/
def wsCommentsOnlyAux : Bool → List Char → Bool
  | _, [] => true
  | true, c :: rest =>
    if c = '\n' then wsCommentsOnlyAux false rest else wsCommentsOnlyAux true rest
  | false, c :: rest =>
    if isRustWhitespace c then wsCommentsOnlyAux false rest
    else if c = '#' then wsCommentsOnlyAux true rest
    else false

/-- A source text consisting only of whitespace and line comments. -/
def wsCommentsOnly (l : List Char) : Bool := wsCommentsOnlyAux false l

theorem scanString_suffix (op : Nat) (acc : String) (l : List (Nat × Char)) :
    ∀ s r, scanString op acc l = .ok (s, r) → r <:+ l := by
  induction acc, l using scanString.induct op with
  | case1 acc => intro s r h; simp [scanString] at h
  | case2 acc p => intro s r h; simp [scanString] at h
  | case3 acc p q rest2 ih =>
    intro s r h
    simp only [scanString, if_pos rfl] at h
    exact (ih s r h).trans ((List.suffix_cons _ _).trans (List.suffix_cons _ _))
  | case4 acc p q rest2 h1 ih =>
    intro s r h
    simp only [scanString, if_pos rfl, if_neg h1] at h
    exact (ih s r h).trans ((List.suffix_cons _ _).trans (List.suffix_cons _ _))
  | case5 acc p q rest2 h1 h2 ih =>
    intro s r h
    simp only [scanString, if_pos rfl, if_neg h1, if_neg h2] at h
    exact (ih s r h).trans ((List.suffix_cons _ _).trans (List.suffix_cons _ _))
  | case6 acc p q next rest2 h1 h2 h3 =>
    intro s r h
    simp [scanString, h1, h2, h3] at h
  | case7 acc p rest2 h1 =>
    intro s r h
    rw [scanString.eq_def] at h
    simp only [if_neg h1] at h
    rw [if_pos trivial] at h
    simp only [Except.ok.injEq, Prod.mk.injEq] at h
    obtain ⟨-, rfl⟩ := h
    exact List.suffix_cons _ _
  | case8 acc p next rest2 h1 h2 ih =>
    intro s r h
    rw [scanString.eq_def] at h
    simp only [if_neg h1, if_neg h2] at h
    exact (ih s r h).trans (List.suffix_cons _ _)

theorem scanIntLoop_suffix (base : Nat) :
    ∀ (l : List (Nat × Char)) (value v : Int) (r : List (Nat × Char)),
      scanIntLoop base value l = .ok (v, r) → r <:+ l := by
  intro l
  induction l with
  | nil =>
    intro value v r h
    simp only [scanIntLoop, Except.ok.injEq, Prod.mk.injEq] at h
    obtain ⟨-, rfl⟩ := h
    exact List.suffix_rfl
  | cons hd tl ih =>
    intro value v r h
    obtain ⟨p, ch⟩ := hd
    simp only [scanIntLoop] at h
    split at h
    · simp only [Except.ok.injEq, Prod.mk.injEq] at h
      obtain ⟨-, rfl⟩ := h
      exact List.suffix_rfl
    · split at h
      · simp at h
      · exact (ih _ v r h).trans (List.suffix_cons _ _)

theorem intBranch_suffix (ch : Char) (rest : List (Nat × Char)) (v : Int)
    (r : List (Nat × Char)) (h : intBranch ch rest = .ok (v, r)) : r <:+ rest := by
  simp only [intBranch] at h
  split at h
  · simp at h
  · rename_i v' rest2 heq
    simp only [Except.ok.injEq, Prod.mk.injEq] at h
    obtain ⟨-, rfl⟩ := h
    have h2 := scanIntLoop_suffix _ _ _ _ _ heq
    split at h2
    · exact h2.trans (by cases rest with
        | nil => exact List.suffix_rfl
        | cons hd tl => exact List.suffix_cons _ _)
    · exact h2

theorem scanName_suffix (l : List (Nat × Char)) :
    ∀ (acc nm : String) (r : List (Nat × Char)), scanName acc l = (nm, r) → r <:+ l := by
  induction l with
  | nil =>
    intro acc nm r h
    simp only [scanName, Prod.mk.injEq] at h
    exact h.2 ▸ List.suffix_rfl
  | cons hd tl ih =>
    intro acc nm r h
    obtain ⟨p, ch⟩ := hd
    simp only [scanName] at h
    split at h
    · simp only [Prod.mk.injEq] at h
      exact h.2 ▸ List.suffix_rfl
    · exact (ih _ nm r h).trans (List.suffix_cons _ _)

theorem scanComment_suffix (l : List (Nat × Char)) : scanComment l <:+ l := by
  induction l with
  | nil => exact List.suffix_rfl
  | cons hd tl ih =>
    obtain ⟨p, ch⟩ := hd
    simp only [scanComment]
    split
    · exact List.suffix_cons _ _
    · exact ih.trans (List.suffix_cons _ _)

theorem charIndicesAux_snd (cs : List Char) :
    ∀ pos, (charIndicesAux pos cs).map Prod.snd = cs := by
  induction cs with
  | nil => intro pos; simp [charIndicesAux]
  | cons c cs ih => intro pos; simp [charIndicesAux, ih]

theorem charIndicesAux_fst_lb (cs : List Char) :
    ∀ pos, ∀ q ∈ (charIndicesAux pos cs).map Prod.fst, pos ≤ q := by
  induction cs with
  | nil => intro pos q hq; simp [charIndicesAux] at hq
  | cons c cs ih =>
    intro pos q hq
    simp only [charIndicesAux, List.map_cons, List.mem_cons] at hq
    rcases hq with rfl | hq
    · exact le_rfl
    · exact le_trans (Nat.le_add_right _ _) (ih _ q hq)

theorem charIndicesAux_pairwise (cs : List Char) :
    ∀ pos, ((charIndicesAux pos cs).map Prod.fst).Pairwise (· < ·) := by
  induction cs with
  | nil => intro pos; simp [charIndicesAux]
  | cons c cs ih =>
    intro pos
    simp only [charIndicesAux, List.map_cons, List.pairwise_cons]
    refine ⟨fun q hq => ?_, ih _⟩
    have := charIndicesAux_fst_lb cs (pos + c.utf8Size) q hq
    have hpos := Char.utf8Size_pos c
    omega

theorem tkCons_ok (t : Token) (r : TResult) (toks : List Token)
    (h : tkCons t r = .ok toks) : ∃ ts, r = .ok ts ∧ toks = t :: ts := by
  cases r with
  | ok ts => exact ⟨ts, rfl, by simpa [tkCons] using h.symm⟩
  | error e => simp [tkCons] at h
  | nofuel => simp [tkCons] at h

theorem pos_cons_step (p : Nat) (ch : Char) (rest restX : List (Nat × Char))
    (tk : Token) (ts : List Token)
    (hsub : restX <:+ rest) (hp : (((p, ch) :: rest).map Prod.fst).Pairwise (· < ·))
    (htk : tk.pos = p)
    (ihp : (ts.map Token.pos).Pairwise (· < ·))
    (ihm : ∀ t ∈ ts, t.pos ∈ restX.map Prod.fst) :
    ((tk :: ts).map Token.pos).Pairwise (· < ·) ∧
      ∀ t ∈ tk :: ts, t.pos ∈ ((p, ch) :: rest).map Prod.fst := by
  simp only [List.map_cons, List.pairwise_cons] at hp ⊢
  refine ⟨⟨?_, ihp⟩, ?_⟩
  · intro a ha
    simp only [List.mem_map] at ha
    obtain ⟨t, ht, rfl⟩ := ha
    have hmem : t.pos ∈ rest.map Prod.fst :=
      List.Sublist.subset (hsub.sublist.map _) (ihm t ht)
    exact htk ▸ hp.1 _ hmem
  · intro t ht
    rcases List.mem_cons.mp ht with rfl | ht
    · exact List.mem_cons.mpr (Or.inl htk)
    · exact List.mem_cons.mpr
        (Or.inr (List.Sublist.subset (hsub.sublist.map _) (ihm t ht)))

theorem pos_skip_step (p : Nat) (ch : Char) (rest restX : List (Nat × Char))
    (toks : List Token) (hsub : restX <:+ rest)
    (ihm : ∀ t ∈ toks, t.pos ∈ restX.map Prod.fst) :
    ∀ t ∈ toks, t.pos ∈ ((p, ch) :: rest).map Prod.fst := by
  intro t ht
  simp only [List.map_cons]
  exact List.mem_cons.mpr (Or.inr (List.Sublist.subset (hsub.sublist.map _) (ihm t ht)))

theorem pairwise_tail_of_suffix {p : Nat} {ch : Char}
    {rest restX : List (Nat × Char)}
    (hsub : restX <:+ rest) (hp : (((p, ch) :: rest).map Prod.fst).Pairwise (· < ·)) :
    (restX.map Prod.fst).Pairwise (· < ·) := by
  simp only [List.map_cons, List.pairwise_cons] at hp
  exact List.Pairwise.sublist (hsub.sublist.map _) hp.2

/-- Strictly increasing offsets: whenever `tokenizeF` succeeds on a
stream whose offsets are strictly increasing, the produced tokens carry
strictly increasing offsets drawn from the stream. -/
theorem tokenizeF_pos (fuel : Nat) (l : List (Nat × Char)) :
    ∀ toks, (l.map Prod.fst).Pairwise (· < ·) → tokenizeF fuel l = .ok toks →
      (toks.map Token.pos).Pairwise (· < ·) ∧ ∀ t ∈ toks, t.pos ∈ l.map Prod.fst := by
  induction fuel, l using tokenizeF.induct with
  | case1 l =>
    intro toks hp h
    simp [tokenizeF] at h
  | case2 n =>
    intro toks hp h
    simp only [tokenizeF, TResult.ok.injEq] at h
    subst h
    simp
  | case3 fuel p ch rest hsimple ih =>
    intro toks hp h
    rw [tokenizeF.eq_def] at h
    simp only [hsimple, if_true] at h
    obtain ⟨ts, hts, rfl⟩ := tkCons_ok _ _ _ h
    obtain ⟨ihp, ihm⟩ := ih ts (pairwise_tail_of_suffix List.suffix_rfl hp) hts
    exact pos_cons_step p ch rest rest _ ts List.suffix_rfl hp rfl ihp ihm
  | case4 fuel p rest e herr hns =>
    intro toks hp h
    rw [tokenizeF.eq_def] at h
    simp only [if_neg hns, if_pos rfl, herr, if_true] at h
    exact TResult.noConfusion h
  | case5 fuel p rest content rest2 hok hns ih =>
    intro toks hp h
    rw [tokenizeF.eq_def] at h
    simp only [if_neg hns, if_pos rfl, hok] at h
    obtain ⟨ts, hts, rfl⟩ := tkCons_ok _ _ _ h
    have hsub : rest2 <:+ rest := scanString_suffix p "" rest content rest2 hok
    obtain ⟨ihp, ihm⟩ := ih ts (pairwise_tail_of_suffix hsub hp) hts
    exact pos_cons_step p dquote rest rest2 _ ts hsub hp rfl ihp ihm
  | case6 fuel p ch rest hns hnd hdig e herr =>
    intro toks hp h
    rw [tokenizeF.eq_def] at h
    simp only [if_neg hns, if_neg hnd, if_pos hdig, herr] at h
    exact TResult.noConfusion h
  | case7 fuel p ch rest hns hnd hdig v rest2 hok ih =>
    intro toks hp h
    rw [tokenizeF.eq_def] at h
    simp only [if_neg hns, if_neg hnd, if_pos hdig, hok] at h
    obtain ⟨ts, hts, rfl⟩ := tkCons_ok _ _ _ h
    have hsub : rest2 <:+ rest := intBranch_suffix ch rest v rest2 hok
    obtain ⟨ihp, ihm⟩ := ih ts (pairwise_tail_of_suffix hsub hp) hts
    exact pos_cons_step p ch rest rest2 _ ts hsub hp rfl ihp ihm
  | case8 fuel p rest hns hnd hdig ih =>
    intro toks hp h
    rw [tokenizeF.eq_def] at h
    simp only [if_neg hns, if_neg hnd, if_neg hdig, if_pos rfl] at h
    have hsub : scanComment rest <:+ rest := scanComment_suffix rest
    obtain ⟨ihp, ihm⟩ := ih toks (pairwise_tail_of_suffix hsub hp) h
    exact ⟨ihp, pos_skip_step p '#' rest _ toks hsub ihm⟩
  | case9 fuel p ch rest hns hnd hdig hnh hws ih =>
    intro toks hp h
    rw [tokenizeF.eq_def] at h
    simp only [if_neg hns, if_neg hnd, if_neg hdig, if_neg hnh,
      hws, if_true] at h
    obtain ⟨ihp, ihm⟩ := ih toks (pairwise_tail_of_suffix List.suffix_rfl hp) h
    exact ⟨ihp, pos_skip_step p ch rest rest toks List.suffix_rfl ihm⟩
  | case10 fuel p ch rest hns hnd hdig hnh hnw nm rest2 hok ih =>
    intro toks hp h
    rw [tokenizeF.eq_def] at h
    simp only [if_neg hns, if_neg hnd, if_neg hdig, if_neg hnh,
      if_neg hnw, hok] at h
    obtain ⟨ts, hts, rfl⟩ := tkCons_ok _ _ _ h
    have hsub : rest2 <:+ rest := scanName_suffix rest _ nm rest2 hok
    obtain ⟨ihp, ihm⟩ := ih ts (pairwise_tail_of_suffix hsub hp) hts
    exact pos_cons_step p ch rest rest2 _ ts hsub hp rfl ihp ihm

theorem ws_guards (ch : Char) (h : isRustWhitespace ch = true) :
    ¬isSimple ch = true ∧ ch ≠ dquote ∧ isDecimalDigit ch = false ∧
      ch ≠ '-' ∧ ch ≠ '#' := by
  refine ⟨?_, ?_, ?_, ?_, ?_⟩
  · intro hs
    simp only [isSimple, decide_eq_true_eq] at hs
    rcases hs with rfl | rfl | rfl | rfl | rfl <;> exact absurd h (by decide)
  · intro hs
    subst hs
    exact absurd h (by decide)
  · by_contra hd
    rw [Bool.not_eq_false] at hd
    simp only [isDecimalDigit, Bool.and_eq_true, decide_eq_true_eq] at hd
    simp only [isRustWhitespace, Bool.or_eq_true, Bool.and_eq_true,
      decide_eq_true_eq, Nat.beq_eq_true_eq] at h
    omega
  · intro hs
    subst hs
    exact absurd h (by decide)
  · intro hs
    subst hs
    exact absurd h (by decide)

theorem wsAux_scanComment (rest : List (Nat × Char))
    (h : wsCommentsOnlyAux true (rest.map Prod.snd) = true) :
    wsCommentsOnlyAux false ((scanComment rest).map Prod.snd) = true := by
  induction rest with
  | nil => simpa using h
  | cons hd tl ih =>
    obtain ⟨p, ch⟩ := hd
    by_cases hc : ch = '\n'
    · subst hc
      simp only [scanComment, if_pos rfl]
      simpa [wsCommentsOnlyAux] using h
    · simp only [scanComment, if_neg hc]
      exact ih (by simpa [wsCommentsOnlyAux, hc] using h)

/-- Whitespace-and-comments-only input tokenizes to the empty token
list (given sufficient fuel). -/
theorem tokenizeF_ws (fuel : Nat) :
    ∀ l : List (Nat × Char), l.length < fuel →
      wsCommentsOnly (l.map Prod.snd) = true → tokenizeF fuel l = .ok [] := by
  induction fuel with
  | zero => intro l hl _; exact absurd hl (Nat.not_lt_zero _)
  | succ fuel ih =>
    intro l hl hws
    cases l with
    | nil => rfl
    | cons hd tl =>
      obtain ⟨p, ch⟩ := hd
      by_cases hw : isRustWhitespace ch = true
      · obtain ⟨h1, h2, h3, h4, h5⟩ := ws_guards ch hw
        rw [tokenizeF.eq_def]
        simp only [if_neg h1, if_neg h2,
          if_neg (show ¬(isDecimalDigit ch = true ∨ (ch = '-' ∧ decimalAhead tl = true)) by
            simp [h3, h4]),
          if_neg h5, hw, if_true]
        apply ih
        · simpa using Nat.lt_of_succ_lt_succ (by simpa using hl)
        · simpa [wsCommentsOnly, wsCommentsOnlyAux, hw] using hws
      · have hch : ch = '#' := by
          by_contra hne
          simp [wsCommentsOnly, wsCommentsOnlyAux, hw, hne] at hws
        subst hch
        rw [tokenizeF.eq_def]
        simp only [if_neg (show ¬isSimple '#' = true by decide),
          if_neg (show ('#' : Char) ≠ dquote by decide),
          if_neg (show ¬(isDecimalDigit '#' = true ∨ (('#' : Char) = '-' ∧ decimalAhead tl = true)) by
            rintro (hd | ⟨hdash, -⟩)
            · exact absurd hd (by decide)
            · exact absurd hdash (by decide)),
          if_pos rfl]
        apply ih
        · have := (scanComment_suffix tl).length_le
          simp only [List.length_cons] at hl
          omega
        · exact wsAux_scanComment tl
            (by simpa [wsCommentsOnly, wsCommentsOnlyAux, hw] using hws)

theorem charIndices_snd (s : String) : (charIndices s).map Prod.snd = s.data :=
  charIndicesAux_snd s.data 0

/-- `dispatchCall` never produces an `.expr` call. -/
theorem dispatchCall_ne_expr (n : String) (next : Token) (l l' : List Token) :
    dispatchCall n next l ≠ .expr l' := by
  simp only [dispatchCall]
  split
  · exact fun h => PCall.noConfusion h
  · split
    · exact fun h => PCall.noConfusion h
    · split
      · exact fun h => PCall.noConfusion h
      · split
        · exact fun h => PCall.noConfusion h
        · exact fun h => PCall.noConfusion h

theorem closeForm_ok (tok : Token) (res : Option Expr) (l : List Token)
    (e : Option Expr) (r : List Token) (h : closeForm tok res l = .ok e r) :
    e = res ∧ ∃ t rest, l = t :: rest ∧ t.kind = .RParen ∧ r = rest := by
  cases l with
  | nil => exact absurd h (by simp [closeForm])
  | cons t rest =>
    simp only [closeForm] at h
    split at h
    · rename_i hk
      cases h
      exact ⟨rfl, t, _, rfl, hk, rfl⟩
    · cases h

/-- The only call that can return `Ok(None)` is `parse_expr` on an empty
token stream. -/
theorem parseF_ok_none (fuel : Nat) :
    ∀ (c : PCall) (r : List Token), parseF fuel c = .ok none r → c = .expr [] ∧ r = [] := by
  induction fuel with
  | zero => intro c r h; exact absurd h (by simp [parseF])
  | succ fuel ih =>
    intro c r h
    cases c with
    | expr l =>
      cases l with
      | nil =>
        simp only [parseF] at h
        cases h
        exact ⟨rfl, rfl⟩
      | cons token rest =>
        exfalso
        obtain ⟨kind, pos⟩ := token
        cases kind with
        | LParen =>
          simp only [parseF] at h
          cases rest with
          | nil => cases h
          | cons next rest2 =>
            obtain ⟨nkind, npos⟩ := next
            cases nkind with
            | Name n =>
              simp only at h
              cases hd : parseF fuel (dispatchCall n ⟨.Name n, npos⟩ rest2) with
              | ok result rest3 =>
                rw [hd] at h
                have hc := closeForm_ok _ _ _ _ _ h
                obtain ⟨rfl, -⟩ := hc
                exact dispatchCall_ne_expr n _ rest2 [] (ih _ _ hd).1
              | err e => rw [hd] at h; cases h
              | panic => rw [hd] at h; cases h
              | nofuel => rw [hd] at h; cases h
            | LParen => simp only at h; cases h
            | RParen => simp only at h; cases h
            | LBracket => simp only at h; cases h
            | RBracket => simp only at h; cases h
            | Quote => simp only at h; cases h
            | Integer v => simp only at h; cases h
            | String s => simp only at h; cases h
        | RParen => simp only [parseF] at h; cases h
        | LBracket => simp only [parseF] at h; cases h
        | RBracket => simp only [parseF] at h; cases h
        | Quote => simp only [parseF] at h; cases h
        | Name n => simp only [parseF] at h; cases h
        | Integer v => simp only [parseF] at h; cases h
        | String s => simp only [parseF] at h; cases h
    | definefn tok l =>
      exfalso
      simp only [parseF] at h
      cases l with
      | nil => cases h
      | cons nameTok rest =>
        obtain ⟨nkind, npos⟩ := nameTok
        cases nkind with
        | Name n =>
          simp only at h
          cases h1 : parseF fuel (.expr rest) with
          | ok val rest2 =>
            rw [h1] at h
            cases val with
            | some args =>
              simp only at h
              cases h2 : parseF fuel (.expr rest2) with
              | ok val2 rest3 =>
                rw [h2] at h
                cases val2 with
                | some body => cases h
                | none => cases h
              | err e => rw [h2] at h; cases h
              | panic => rw [h2] at h; cases h
              | nofuel => rw [h2] at h; cases h
            | none => cases h
          | err e => rw [h1] at h; cases h
          | panic => rw [h1] at h; cases h
          | nofuel => rw [h1] at h; cases h
        | LParen => simp only at h; cases h
        | RParen => simp only at h; cases h
        | LBracket => simp only at h; cases h
        | RBracket => simp only at h; cases h
        | Quote => simp only at h; cases h
        | Integer v => simp only at h; cases h
        | String s => simp only at h; cases h
    | letDecl tok l =>
      exfalso
      simp only [parseF] at h
      cases l with
      | nil => cases h
      | cons nameTok rest =>
        obtain ⟨nkind, npos⟩ := nameTok
        cases nkind with
        | Name n =>
          simp only at h
          cases rest with
          | nil => cases h
          | cons typeTok rest2 =>
            obtain ⟨tkind, tpos⟩ := typeTok
            cases tkind with
            | Name ty => simp only at h; cases h
            | LParen => simp only at h; cases h
            | RParen => simp only at h; cases h
            | LBracket => simp only at h; cases h
            | RBracket => simp only at h; cases h
            | Quote => simp only at h; cases h
            | Integer v => simp only at h; cases h
            | String s => simp only at h; cases h
        | LParen => simp only at h; cases h
        | RParen => simp only at h; cases h
        | LBracket => simp only at h; cases h
        | RBracket => simp only at h; cases h
        | Quote => simp only at h; cases h
        | Integer v => simp only at h; cases h
        | String s => simp only at h; cases h
    | fncall name acc l =>
      exfalso
      cases l with
      | nil => simp only [parseF] at h; cases h
      | cons tok rest =>
        simp only [parseF] at h
        split at h
        · cases h
        · cases h1 : parseF fuel (.expr (tok :: rest)) with
          | ok val rest2 =>
            rw [h1] at h
            cases val with
            | some e =>
              simp only at h
              exact PCall.noConfusion (ih _ _ h).1
            | none => cases h
          | err e => rw [h1] at h; cases h
          | panic => rw [h1] at h; cases h
          | nofuel => rw [h1] at h; cases h
    | doSeq acc l =>
      exfalso
      cases l with
      | nil => simp only [parseF] at h; cases h
      | cons tok rest =>
        simp only [parseF] at h
        split at h
        · cases h
        · cases h1 : parseF fuel (.expr (tok :: rest)) with
          | ok val rest2 =>
            rw [h1] at h
            cases val with
            | some e =>
              simp only at h
              exact PCall.noConfusion (ih _ _ h).1
            | none => cases h
          | err e => rw [h1] at h; cases h
          | panic => rw [h1] at h; cases h
          | nofuel => rw [h1] at h; cases h
    | argsList acc l =>
      exfalso
      cases l with
      | nil => simp only [parseF] at h; cases h
      | cons tok rest =>
        simp only [parseF] at h
        split at h
        · cases h
        · cases h1 : parseF fuel (.expr (tok :: rest)) with
          | ok val rest2 =>
            rw [h1] at h
            cases val with
            | some e =>
              simp only at h
              exact PCall.noConfusion (ih _ _ h).1
            | none => cases h
          | err e => rw [h1] at h; cases h
          | panic => rw [h1] at h; cases h
          | nofuel => rw [h1] at h; cases h

/-- Claim C1: parsing the source text `(fn add (args a b) (do (+ a b)))`
yields exactly one top-level expression — a function definition named
`add` whose parameters are the argument list `[a, b]` and whose body is
the sequence containing the single call `(+ a b)` — and a subsequent
call to `parse_expr` returns the end-of-input outcome `None`. -/
theorem claim_C1_parse_function_definition :
    tokenize "(fn add (args a b) (do (+ a b)))" =
      .ok [⟨.LParen, 0⟩, ⟨.Name "fn", 1⟩, ⟨.Name "add", 4⟩,
        ⟨.LParen, 8⟩, ⟨.Name "args", 9⟩, ⟨.Name "a", 14⟩, ⟨.Name "b", 16⟩, ⟨.RParen, 17⟩,
        ⟨.LParen, 19⟩, ⟨.Name "do", 20⟩,
        ⟨.LParen, 23⟩, ⟨.Name "+", 24⟩, ⟨.Name "a", 26⟩, ⟨.Name "b", 28⟩, ⟨.RParen, 29⟩,
        ⟨.RParen, 30⟩, ⟨.RParen, 31⟩] ∧
    parse_expr [⟨.LParen, 0⟩, ⟨.Name "fn", 1⟩, ⟨.Name "add", 4⟩,
        ⟨.LParen, 8⟩, ⟨.Name "args", 9⟩, ⟨.Name "a", 14⟩, ⟨.Name "b", 16⟩, ⟨.RParen, 17⟩,
        ⟨.LParen, 19⟩, ⟨.Name "do", 20⟩,
        ⟨.LParen, 23⟩, ⟨.Name "+", 24⟩, ⟨.Name "a", 26⟩, ⟨.Name "b", 28⟩, ⟨.RParen, 29⟩,
        ⟨.RParen, 30⟩, ⟨.RParen, 31⟩] =
      .ok (some (.DefineFn "add" (.Args [.VariableRef "a", .VariableRef "b"])
        (.Do [.FnCall "+" [.VariableRef "a", .VariableRef "b"]]))) [] ∧
    parse_expr [] = .ok none [] :=
  ⟨by decide, rfl, rfl⟩

/-- Claim C2: the claim says the parser never panics on truncated input,
but on the tokens of `(fn x` — end of input where `parse_definefn`
expects the parameter list — the code's `.unwrap()` of `Ok(None)`
panics.  The other parts of the claim do hold: `(foo` produces a
structured end-of-input error and end of input at top level yields
`None`. -/
theorem claim_C2_truncated_definefn :
    tokenize "(fn x" = .ok [⟨.LParen, 0⟩, ⟨.Name "fn", 1⟩, ⟨.Name "x", 4⟩] ∧
    parse_expr [⟨.LParen, 0⟩, ⟨.Name "fn", 1⟩, ⟨.Name "x", 4⟩] = .panic ∧
    parse_expr [⟨.LParen, 0⟩, ⟨.Name "foo", 1⟩] =
      .err ⟨"Unexpected end of input, was expecting a closing parenthesis to close this expression",
        ⟨.LParen, 0⟩⟩ ∧
    parse_expr [] = .ok none [] :=
  ⟨by decide, rfl, rfl, rfl⟩

/-- Claim C3, counterexample: tokenizing `"abc` (opening quote at offset
0, last consumed character `c` at offset 3) fails with `Unterminated
string` recorded at offset 0, not at offset 3 as the claim states. -/
theorem claim_C3_counterexample :
    tokenize "\x22abc" = .error ⟨"Unterminated string", 0⟩ ∧
    tokenize "\x22abc" ≠ .error ⟨"Unterminated string", 3⟩ :=
  ⟨by decide, by decide⟩

/-- Claim C3, amended: when `tokenize` reaches end of input inside a
string literal before the closing quote, it fails with an
`Unterminated string` error whose recorded offset is the offset of the
opening double quote (the `op` argument of `scanString`), not the last
consumed character. -/
theorem claim_C3_unterminated_at_opening_quote :
    (∀ (op : Nat) (acc : String), scanString op acc [] = .error ⟨"Unterminated string", op⟩) ∧
    tokenize "\x22abc" = .error ⟨"Unterminated string", 0⟩ :=
  ⟨fun op acc => rfl, by decide⟩

/-- Claim C4: integer literal tokenization — `0x1F` reads its remaining
digits in base 16 and yields 31, `-5` applies the sign once and yields
-5, `12` reads base 10 and yields 12. -/
theorem claim_C4_integer_literals :
    tokenize "0x1F" = .ok [⟨.Integer 31, 0⟩] ∧
    tokenize "-5" = .ok [⟨.Integer (-5), 0⟩] ∧
    tokenize "12" = .ok [⟨.Integer 12, 0⟩] :=
  ⟨by decide, by decide, by decide⟩

/-- Claim C5: the escapes `\"`, `\t`, `\n` decode to quote, tab and
newline — the source text `"a\tb\n\"c"` yields the single string token
`a<TAB>b<NEWLINE>"c` — and any other character after a backslash fails
with the unknown-escape-sequence error anchored at the backslash's
offset. -/
theorem claim_C5_string_escapes :
    tokenize "\x22a\\tb\\n\\\x22c\x22" = .ok [⟨.String "a\tb\n\x22c", 0⟩] ∧
    ∀ (op p q : Nat) (acc : String) (next : Char) (rest : List (Nat × Char)),
      next ≠ dquote → next ≠ 't' → next ≠ 'n' →
      scanString op acc ((p, '\\') :: (q, next) :: rest) =
        .error ⟨unknownEscapeMessage next, p⟩ := by
  constructor
  · decide
  · intro op p q acc next rest h1 h2 h3
    rw [scanString.eq_def]
    simp only [if_pos rfl, if_neg h1, if_neg h2, if_neg h3]
    exact if_pos trivial

/-- Claim C5, witness: the escape `\q` is rejected with the
unknown-escape error at the backslash's offset. -/
theorem claim_C5_witness :
    scanString 0 "" [(1, '\\'), (2, 'q')] = .error ⟨unknownEscapeMessage 'q', 1⟩ :=
  claim_C5_string_escapes.2 0 1 2 "" 'q' [] (by decide) (by decide) (by decide)

/-- Claim C6: after the sub-rule of a parenthesized form completes, the
very next token must be a closing parenthesis: end of input gives an
error anchored at the form's opening-parenthesis token, any other token
gives an error anchored at that token, and the form only succeeds by
consuming that closing parenthesis. -/
theorem claim_C6_closing_paren :
    ∀ (fuel : Nat) (t next : Token) (n : String) (rest2 rest3 : List Token)
      (result : Option Expr),
      t.kind = .LParen → next.kind = .Name n →
      dispatchF fuel n next rest2 = .ok result rest3 →
      parse_exprF (fuel + 1) (t :: next :: rest2) = closeForm t result rest3 ∧
      (rest3 = [] → closeForm t result rest3 =
        .err ⟨"Unexpected end of input, was expecting a closing parenthesis to close this expression", t⟩) ∧
      (∀ u rest4, rest3 = u :: rest4 → u.kind ≠ .RParen →
        closeForm t result rest3 = .err ⟨"Unexpected token, was expecting a closing parenthesis", u⟩) ∧
      (∀ r rest5, closeForm t result rest3 = .ok r rest5 →
        ∃ u rest4, rest3 = u :: rest4 ∧ u.kind = .RParen ∧ rest5 = rest4 ∧ r = result) := by
  intro fuel t next n rest2 rest3 result ht hn hd
  obtain ⟨tk, tp⟩ := t
  obtain ⟨nk, np⟩ := next
  simp only [Token.mk.injEq] at ht hn ⊢
  subst ht
  subst hn
  simp only [dispatchF] at hd
  refine ⟨?_, ?_, ?_, ?_⟩
  · simp only [parse_exprF, parseF]
    rw [hd]
  · rintro rfl
    rfl
  · rintro u rest4 rfl hu
    simp only [closeForm]
    rw [if_neg hu]
  · intro r rest5 hok
    obtain ⟨hr, u, rest4, hr3, hk, hr5⟩ := closeForm_ok _ _ _ _ _ hok
    exact ⟨u, rest4, hr3, hk, hr5, hr⟩

/-- Claim C6, witness: for the form `(foo)` the generic-call sub-rule
stops at the closing parenthesis and `parse_expr` hands the stream to
the closing-parenthesis check. -/
theorem claim_C6_witness :
    parse_exprF 2 [⟨.LParen, 0⟩, ⟨.Name "foo", 1⟩, ⟨.RParen, 4⟩] =
      closeForm ⟨.LParen, 0⟩ (some (.FnCall "foo" [])) [⟨.RParen, 4⟩] :=
  (claim_C6_closing_paren 1 ⟨.LParen, 0⟩ ⟨.Name "foo", 1⟩ "foo" [⟨.RParen, 4⟩]
    [⟨.RParen, 4⟩] (some (.FnCall "foo" [])) rfl rfl rfl).1

/-- Claim C7: for every source text on which `tokenize` succeeds the
recorded token offsets are strictly increasing from one token to the
next, and `(+ 1 2)` tokenizes to exactly opening-paren, name `+`,
integer 1, integer 2, closing-paren with strictly increasing offsets. -/
theorem claim_C7_offsets_increasing :
    (∀ (s : String) (toks : List Token), tokenize s = .ok toks →
      (toks.map Token.pos).Pairwise (· < ·)) ∧
    tokenize "(+ 1 2)" = .ok [⟨.LParen, 0⟩, ⟨.Name "+", 1⟩, ⟨.Integer 1, 3⟩,
      ⟨.Integer 2, 5⟩, ⟨.RParen, 6⟩] := by
  constructor
  · intro s toks h
    exact (tokenizeF_pos ((charIndices s).length + 1) (charIndices s) toks
      (charIndicesAux_pairwise s.data 0) h).1
  · decide

/-- Claim C7, witness: the tokens of `(+ 1 2)` carry strictly increasing
offsets. -/
theorem claim_C7_witness :
    (([⟨.LParen, 0⟩, ⟨.Name "+", 1⟩, ⟨.Integer 1, 3⟩, ⟨.Integer 2, 5⟩,
      ⟨.RParen, 6⟩] : List Token).map Token.pos).Pairwise (· < ·) :=
  claim_C7_offsets_increasing.1 "(+ 1 2)" _ (by decide)

/-- Claim C8: every input consisting only of whitespace and line
comments tokenizes to the empty token sequence with no error. -/
theorem claim_C8_ws_comments_empty :
    ∀ s : String, wsCommentsOnly s.data = true → tokenize s = .ok [] := by
  intro s h
  exact tokenizeF_ws _ (charIndices s) (Nat.lt_succ_self _)
    (by rwa [charIndices_snd])

/-- Claim C8, witness: a mix of whitespace and two comments tokenizes to
the empty sequence. -/
theorem claim_C8_witness : tokenize " # hi\n\t # more" = .ok [] :=
  claim_C8_ws_comments_empty " # hi\n\t # more" (by decide)

/-- Claim C9: whenever `parse_expr` is invoked with at least one token
remaining it never returns the end-of-input outcome `Ok(None)` — the
invariant behind the repetition loops' unchecked `.unwrap()`. -/
theorem claim_C9_no_none_mid_stream :
    (∀ (fuel : Nat) (l r : List Token), l ≠ [] → parse_exprF fuel l ≠ .ok none r) ∧
    (∀ (l r : List Token), l ≠ [] → parse_expr l ≠ .ok none r) := by
  constructor
  · intro fuel l r hne h
    exact hne (PCall.expr.inj (parseF_ok_none fuel (.expr l) r h).1)
  · intro l r hne h
    exact hne (PCall.expr.inj (parseF_ok_none _ (.expr l) r h).1)

/-- Claim C9, witness: on the one-token stream `x` the parser does not
return `Ok(None)`. -/
theorem claim_C9_witness : parse_expr [⟨.Name "x", 0⟩] ≠ .ok none [] :=
  claim_C9_no_none_mid_stream.2 [⟨.Name "x", 0⟩] [] (by decide)

/-- Claim C10: a backslash that is the final character of the input
inside a string literal fails with the message `Unexpected end of file`
anchored at the backslash's offset, a fourth tokenize failure case whose
message differs from the three error kinds the spec lists. -/
theorem claim_C10_backslash_at_eof :
    tokenize "\x22ab\\" = .error ⟨"Unexpected end of file", 3⟩ ∧
    (∀ (op p : Nat) (acc : String),
      scanString op acc [(p, '\\')] = .error ⟨"Unexpected end of file", p⟩) ∧
    (∀ c : Char, unknownEscapeMessage c ≠ "Unexpected end of file") ∧
    "Unexpected end of file" ≠ "Unterminated string" ∧
    "Unexpected end of file" ≠ "Unexpected character in integer literal" := by
  refine ⟨by decide, fun op p acc => rfl, ?_, by decide, by decide⟩
  intro c h
  have hd : ("Unknown escape sequence ".data ++ [squote, '\\', c, squote]).length =
      ("Unexpected end of file".data).length := by
    rw [show ("Unknown escape sequence ".data ++ [squote, '\\', c, squote]) =
      (unknownEscapeMessage c).data from rfl, h]
  simp at hd

/-- Claim C10, witness: the backslash-at-end-of-input message is not the
unknown-escape message for `q`. -/
theorem claim_C10_witness : unknownEscapeMessage 'q' ≠ "Unexpected end of file" :=
  claim_C10_backslash_at_eof.2.2.1 'q'

end Mcf
